import Mathlib

/-!
# Verification of the uwasa map-method compiler and VM map opcodes

Shallow embedding of the Go code carried by the repository's two patch
scripts:

* `fix_neo_compiler_v2.py` holds the NeoCompiler's
  `parseMemberCallExpression`, the member-call compiler for
  `m.get/set/has/del(...)` on map-typed bound variables.
* `reapply_map_opt.py` holds the two VM handlers for the constant-key map
  lookup opcode (`NeoOpMapGetConst` for the Neo VM, `OpMapGetConst` for the
  plain VM) and the VMCompiler's constant-key fast path for `get`.

Collaborators not present in the repository (the expression parser,
`emitPush`, `addConstant`, `boolToUint64`, `FromInterface`) are modelled
from the spec, marked as such in their doc comments.
-/

namespace Uwasa

/-- Runtime value type discriminants (`ValInt`, `ValFloat`, ... in the Go
source). `ValOther` stands for any further discriminant outside this core. -/
inductive ValType where
  | ValInt
  | ValFloat
  | ValString
  | ValBool
  | ValNil
  | ValMap
  | ValOther
deriving DecidableEq, Repr, Inhabited

/-- A dynamically typed Go value as stored in a `map[string]any` payload:
the cases of the handlers' type switch. `aFloat64` carries the IEEE-754 bit
pattern of the stored `float64` (the handlers only ever move those bits via
`math.Float64bits`, never compute with them). `aOther` is an opaque token
for any stored value outside the switch's explicit cases. -/
inductive GoAny where
  | aInt64 (v : Int)
  | aInt (v : Int)
  | aFloat64 (bits : Nat)
  | aString (s : String)
  | aBool (b : Bool)
  | aNil
  | aOther (tag : Nat)
deriving DecidableEq, Repr, Inhabited

/-- The tagged runtime `Value` struct: discriminant `Type`, 64-bit numeric
slot `Num` (a `Nat`, reduced mod 2^64 where the Go code converts), string
slot `Str`, and `Ptr`, whose only use in this core is as a
`map[string]any` payload, modelled as an association list. Field defaults
are the Go zero values. -/
structure Value where
  «Type» : ValType := .ValNil
  Num : Nat := 0
  Str : String := ""
  Ptr : List (String × GoAny) := []
deriving DecidableEq, Repr, Inhabited

/-- Go's `uint64(v)` for a signed 64-bit `v`: reduce mod 2^64. -/
def uint64ofInt (v : Int) : Nat := (v % (2 ^ 64)).toNat

/-- Modelled from the spec: helper `boolToUint64` used by both VM handlers
(not itself in the repository); both handlers call the one shared symbol,
so only that sharing matters to the claims. -/
def boolToUint64 (b : Bool) : Nat := if b then 1 else 0

/-- Go map indexing `m[k]` on a `map[string]any`: the stored value, or the
zero value of `any` (`nil`) when the key is absent. -/
def mapIndex (m : List (String × GoAny)) (k : String) : GoAny :=
  match m.lookup k with
  | some v => v
  | none => .aNil

/-- Opcodes of the two instruction sets touched by this core. `NeoOpPush`
is the Neo push-literal instruction emitted by `emitPush` and `OpPush` its
plain-VM counterpart (names modelled from the spec; the repository only
shows the `emitPush` call sites). -/
inductive OpCode where
  | NeoOpGetGlobal
  | NeoOpPush
  | NeoOpMapGetConst
  | NeoOpMapGet
  | NeoOpMapSet
  | NeoOpMapHas
  | NeoOpMapDel
  | OpGetGlobal
  | OpPush
  | OpMapGetConst
  | OpMapGet
deriving DecidableEq, Repr, Inhabited

/-- An instruction: opcode and operand (`inst.Arg`), the operand being a
constant-pool index or unused (0). -/
structure Instruction where
  Op : OpCode
  Arg : Nat
deriving DecidableEq, Repr, Inhabited

/-- The compiler state threaded through member-call compilation: the
append-only instruction buffer `c.instructions` and the append-only
constant pool `c.constants`. -/
structure CompState where
  instructions : List Instruction := []
  constants : List Value := []
deriving DecidableEq, Repr, Inhabited

/-- `c.emit(op, arg)`: append one instruction to the buffer. -/
def CompState.emit (st : CompState) (op : OpCode) (arg : Nat) : CompState :=
  { st with instructions := st.instructions ++ [⟨op, arg⟩] }

/-- Modelled from the spec: `c.addConstant(v)` appends `v` to the constant
pool and returns the new index (no deduplication). -/
def CompState.addConstant (st : CompState) (v : Value) : Nat × CompState :=
  (st.constants.length, { st with constants := st.constants ++ [v] })

/-- Modelled from the spec: `c.emitPush(v)` emits a push-literal
instruction whose operand is a freshly allocated constant-pool index for
`v`. -/
def CompState.emitPush (st : CompState) (v : Value) : CompState :=
  let p := st.addConstant v
  p.2.emit .NeoOpPush p.1

/-- The `compilationValue` struct: compile-time status of a parsed
subexpression. `isConst` with `val` set means a known literal not yet
materialized on the runtime stack. -/
structure compilationValue where
  isConst : Bool := false
  val : Value := {}
deriving DecidableEq, Repr, Inhabited

/-- Modelled from the spec: what `c.parseExpression(LOWEST)` does for one
argument of a member call. A `const v` argument is a literal: the parser
returns `{isConst := true, val := v}` and emits nothing. A
`nonConst code consts` argument is any other expression: the parser
appends its compiled instructions (and any pool entries) as a side effect
and returns `{isConst := false}`. -/
inductive Arg where
  | const (v : Value)
  | nonConst (code : List Instruction) (consts : List Value)
deriving DecidableEq, Repr, Inhabited

/-- Modelled from the spec: run the expression parser on one argument
(see `Arg`), returning the updated state and the `compilationValue`. -/
def parseArgExpr (st : CompState) (a : Arg) : CompState × compilationValue :=
  match a with
  | .const v => (st, { isConst := true, val := v })
  | .nonConst code consts =>
      ({ instructions := st.instructions ++ code,
         constants := st.constants ++ consts }, { isConst := false })

/-- The instructions an argument's own parse emits (empty for a literal). -/
def Arg.code : Arg → List Instruction
  | .const _ => []
  | .nonConst code _ => code

/-- Materialize one argument on the runtime stack from state `st`: a
literal becomes an `emitPush`, a non-constant argument's instructions are
already its materialization. -/
def materialize (st : CompState) (a : Arg) : CompState :=
  match a with
  | .const v => st.emitPush v
  | .nonConst code consts =>
      { instructions := st.instructions ++ code,
        constants := st.constants ++ consts }

/-- Result of `parseMemberCallExpression`: the Go function either returns
`(compilationValue, nil)`, returns an error (`fmt.Errorf` message), or
panics on an out-of-range index. The compiler `c` is mutated in place, so
`ok` and `err` carry the state as left by the call. -/
inductive CompResult where
  | ok (v : compilationValue) (st : CompState)
  | err (msg : String) (st : CompState)
  | panic
deriving DecidableEq, Repr, Inhabited

/-- The error message of a result, if it is an error. -/
def CompResult.errMsg : CompResult → Option String
  | .err m _ => some m
  | _ => none

/-- Whether the result is a successful compilation. -/
def CompResult.isOk : CompResult → Bool
  | .ok _ _ => true
  | _ => false

/-- The comma loop of the argument list: for each further argument, first
flush a still-pending first constant (`emitPush`, clearing the flag), then
parse the argument, then flush it immediately if it is itself a constant.
Returns the state and the final `firstArgConst` flag. -/
def argLoop (st : CompState) (firstArgConst : Bool) (firstArgVal : Value) :
    List Arg → CompState × Bool
  | [] => (st, firstArgConst)
  | a :: rest =>
      let st1 := if firstArgConst then st.emitPush firstArgVal else st
      let p := parseArgExpr st1 a
      let st3 := if p.2.isConst then p.1.emitPush p.2.val else p.1
      argLoop st3 false firstArgVal rest

/-- The argument-list block of `parseMemberCallExpression`: parse the
first argument (retaining its constant status), run the comma loop over
the rest, and count the arguments. Returns
(state, firstArgConst, firstArgVal, numArgs). -/
def parseArgsList (st : CompState) (args : List Arg) :
    CompState × Bool × Value × Nat :=
  match args with
  | [] => (st, false, {}, 0)
  | a :: rest =>
      let p := parseArgExpr st a
      let q := argLoop p.1 p.2.isConst p.2.val rest
      (q.1, q.2, p.2.val, rest.length + 1)

/-- The `switch method` block closing `parseMemberCallExpression`, over
the state and the (firstArgConst, firstArgVal, numArgs) triple left by
the argument loop: arity checks, the `get` constant-string-key fast path,
the pending-constant flushes, and the opcode emissions, following the Go
switch case by case. -/
def methodSwitch (method : String) (st : CompState) (firstArgConst : Bool)
    (firstArgVal : Value) (numArgs : Nat) : CompResult :=
  if method = "get" then
    if numArgs ≠ 1 then .err "get expects 1 argument" st
    else if firstArgConst ∧ firstArgVal.«Type» = .ValString then
      let p := st.addConstant firstArgVal
      .ok { isConst := false } (p.2.emit .NeoOpMapGetConst p.1)
    else
      let st := if firstArgConst then st.emitPush firstArgVal else st
      .ok { isConst := false } (st.emit .NeoOpMapGet 0)
  else if method = "set" then
    let st := if firstArgConst then st.emitPush firstArgVal else st
    if numArgs ≠ 2 then .err "set expects 2 arguments" st
    else .ok { isConst := false } (st.emit .NeoOpMapSet 0)
  else if method = "has" then
    let st := if firstArgConst then st.emitPush firstArgVal else st
    if numArgs ≠ 1 then .err "has expects 1 argument" st
    else .ok { isConst := false } (st.emit .NeoOpMapHas 0)
  else if method = "del" then
    let st := if firstArgConst then st.emitPush firstArgVal else st
    if numArgs ≠ 1 then .err "del expects 1 argument" st
    else .ok { isConst := false } (st.emit .NeoOpMapDel 0)
  else .err ("unknown map method: " ++ method) st

/-- `(c *NeoCompiler) parseMemberCallExpression(left)`, embedded over an
already-recognized call shape: `method` is the method identifier and
`args` the comma-separated argument list (the token-level checks for the
method name and the parentheses, whose `ParseError`s are outside every
claim, are abstracted into this shape). Everything else follows the Go
body line by line: the two subject checks, the argument loop
(`parseArgsList`), and the method switch (`methodSwitch`). Reading
`c.instructions[len(c.instructions)-1]` on an empty buffer is the
`panic` result. -/
def parseMemberCallExpression (st : CompState) (left : compilationValue)
    (method : String) (args : List Arg) : CompResult :=
  if left.isConst then
    .err "member call subject must be an identifier" st
  else
    match st.instructions.getLast? with
    | none => .panic
    | some lastInst =>
      if lastInst.Op ≠ .NeoOpGetGlobal then
        .err "member call subject must be an identifier" st
      else
        let r := parseArgsList st args
        methodSwitch method r.1 r.2.1 r.2.2.1 r.2.2.2

/-- The Neo VM's `case NeoOpMapGetConst` handler, over the constant pool
`consts`, the instruction operand `arg`, and the runtime stack with `sp`
the top-of-stack index. The unchecked pointer-arithmetic constant fetch
`(*Value)(unsafe.Add(...)).Str` is modelled as total indexing (`getD`);
theorems carry the in-bounds hypotheses the VM guarantees. The type
assertion `obj.Ptr.(map[string]any)` reads the `Ptr` payload. The generic
fallback `FromInterface` is not in the repository and is left as a
parameter (the spec leaves its behavior unspecified). -/
def neoOpMapGetConstStep (FromInterface : Nat → Value) (consts : List Value)
    (arg : Nat) (stack : List Value) (sp : Nat) : Except String (List Value) :=
  let obj := stack.getD sp {}
  if obj.«Type» ≠ .ValMap then .error "MGETC: not a map"
  else
    let m := obj.Ptr
    let val := mapIndex m (consts.getD arg {}).Str
    let newObj : Value :=
      match val with
      | .aInt64 v => { «Type» := .ValInt, Num := uint64ofInt v }
      | .aInt v => { «Type» := .ValInt, Num := uint64ofInt v }
      | .aFloat64 bits => { «Type» := .ValFloat, Num := bits }
      | .aString s => { «Type» := .ValString, Str := s }
      | .aBool b => { «Type» := .ValBool, Num := boolToUint64 b }
      | .aNil => { «Type» := .ValNil }
      | .aOther t => FromInterface t
    .ok (stack.set sp newObj)

/-- The plain VM's `case OpMapGetConst` handler: identical to the Neo one
except that the constant fetch is plain indexing `consts[inst.Arg].Str`
(again modelled totally, with in-bounds hypotheses in the theorems). -/
def opMapGetConstStep (FromInterface : Nat → Value) (consts : List Value)
    (arg : Nat) (stack : List Value) (sp : Nat) : Except String (List Value) :=
  let obj := stack.getD sp {}
  if obj.«Type» ≠ .ValMap then .error "MGETC: not a map"
  else
    let m := obj.Ptr
    let val := mapIndex m (consts.getD arg {}).Str
    let newObj : Value :=
      match val with
      | .aInt64 v => { «Type» := .ValInt, Num := uint64ofInt v }
      | .aInt v => { «Type» := .ValInt, Num := uint64ofInt v }
      | .aFloat64 bits => { «Type» := .ValFloat, Num := bits }
      | .aString s => { «Type» := .ValString, Str := s }
      | .aBool b => { «Type» := .ValBool, Num := boolToUint64 b }
      | .aNil => { «Type» := .ValNil }
      | .aOther t => FromInterface t
    .ok (stack.set sp newObj)

/-- An argument expression as the plain VMCompiler's AST sees it: a
`*StringLiteral` node or any other expression node. -/
inductive VMExpr where
  | stringLit (s : String)
  | other (tag : Nat)
deriving DecidableEq, Repr, Inhabited

/-- The VMCompiler's `case *MemberCallExpression` constant-key fast path:
when the method is `get` with exactly one argument that is a string
literal, walk the object (subject) and emit `OpMapGetConst` with a fresh
constant-pool index for the key. Any other call shape falls through to
the generic member-call path (outside the repository), returned as
`none`. `walkObject` stands for `c.walk(n.Object)`'s effect on the
state. -/
def vmCompilerFastPath (st : CompState) (walkObject : CompState → CompState)
    (method : String) (args : List VMExpr) : Option CompState :=
  if method = "get" ∧ args.length = 1 then
    match args with
    | [.stringLit s] =>
        let st := walkObject st
        let p := st.addConstant { «Type» := .ValString, Str := s }
        some (p.2.emit .OpMapGetConst p.1)
    | _ => none
  else none

/-- An argument expression including the parser's failure outcome: like
`Arg`, but `fail code consts msg` is an argument whose
`c.parseExpression(LOWEST)` call emits some instructions and pool entries
before returning the error `msg`, which `parseMemberCallExpression`
propagates (`if err != nil { return compilationValue{}, err }`). -/
inductive ArgE where
  | const (v : Value)
  | nonConst (code : List Instruction) (consts : List Value)
  | fail (code : List Instruction) (consts : List Value) (msg : String)
deriving DecidableEq, Repr, Inhabited

/-- The embedding of an always-succeeding argument into `ArgE`. -/
def Arg.toArgE : Arg → ArgE
  | .const v => .const v
  | .nonConst code consts => .nonConst code consts

/-- Modelled from the spec: one `c.parseExpression(LOWEST)` call for an
`ArgE` argument — as `parseArgExpr`, plus the parser's error outcome
(spec: a `ParseError`/`SemanticError` aborts the compilation; a nested
member call, for instance, can fail with its own subject error). -/
def parseArgExprE (st : CompState) (a : ArgE) :
    CompState × Except String compilationValue :=
  match a with
  | .const v => (st, .ok { isConst := true, val := v })
  | .nonConst code consts =>
      ({ instructions := st.instructions ++ code,
         constants := st.constants ++ consts }, .ok { isConst := false })
  | .fail code consts msg =>
      ({ instructions := st.instructions ++ code,
         constants := st.constants ++ consts }, .error msg)

/-- The comma loop with error propagation: a failing argument parse
aborts the loop, returning the error and the state as mutated so far. -/
def argLoopE (st : CompState) (firstArgConst : Bool) (firstArgVal : Value) :
    List ArgE → Except (String × CompState) (CompState × Bool)
  | [] => .ok (st, firstArgConst)
  | a :: rest =>
      let st1 := if firstArgConst then st.emitPush firstArgVal else st
      let p := parseArgExprE st1 a
      match p.2 with
      | .error m => .error (m, p.1)
      | .ok val =>
        let st3 := if val.isConst then p.1.emitPush val.val else p.1
        argLoopE st3 false firstArgVal rest

/-- The argument-list block with error propagation: a failing first or
subsequent argument aborts with its error. -/
def parseArgsListE (st : CompState) (args : List ArgE) :
    Except (String × CompState) (CompState × Bool × Value × Nat) :=
  match args with
  | [] => .ok (st, false, {}, 0)
  | a :: rest =>
      let p := parseArgExprE st a
      match p.2 with
      | .error m => .error (m, p.1)
      | .ok val =>
        match argLoopE p.1 val.isConst val.val rest with
        | .error e => .error e
        | .ok q => .ok (q.1, q.2, val.val, rest.length + 1)

/-- The propagated argument-parse error of an argument-list result. -/
def argsError :
    Except (String × CompState) (CompState × Bool × Value × Nat) → Option String
  | .error e => some e.1
  | .ok _ => none

/-- `parseMemberCallExpression` over `ArgE` arguments: as the restricted
embedding, plus the source's propagated-error returns after each
`c.parseExpression` call (`if err != nil { return compilationValue{}, err }`),
so a compilation can also fail with a nested argument's own error. -/
def parseMemberCallExpressionE (st : CompState) (left : compilationValue)
    (method : String) (args : List ArgE) : CompResult :=
  if left.isConst then
    .err "member call subject must be an identifier" st
  else
    match st.instructions.getLast? with
    | none => .panic
    | some lastInst =>
      if lastInst.Op ≠ .NeoOpGetGlobal then
        .err "member call subject must be an identifier" st
      else
        match parseArgsListE st args with
        | .error e => .err e.1 e.2
        | .ok r => methodSwitch method r.1 r.2.1 r.2.2.1 r.2.2.2

/-! ## Theorems -/

/-- C2: the plain VM's `OpMapGetConst` handler and the Neo VM's
`NeoOpMapGetConst` handler are behaviorally identical: for every stack,
in-bounds top-of-stack index, constant pool, in-bounds operand, and any
generic fallback conversion, both produce the same result — the same
tagged `Value` written at top-of-stack on a Map operand (covering the
int64, int, float64, string, bool, nil and fallback-converted cases) and
the same `"MGETC: not a map"` error on a non-Map operand. -/
theorem map_get_const_handlers_equal (FromInterface : Nat → Value)
    (consts : List Value) (arg : Nat) (stack : List Value) (sp : Nat)
    (hsp : sp < stack.length) (harg : arg < consts.length) :
    neoOpMapGetConstStep FromInterface consts arg stack sp =
      opMapGetConstStep FromInterface consts arg stack sp := rfl

/-- Witness for C2 at a concrete input: a one-element stack holding a map
with an `int64` entry and a pool holding its key. -/
theorem map_get_const_handlers_equal_witness :
    0 < 1 ∧ 0 < 1 ∧
    neoOpMapGetConstStep (fun _ => {}) [{ «Type» := .ValString, Str := "k" }] 0
        [{ «Type» := .ValMap, Ptr := [("k", .aInt64 7)] }] 0 =
      opMapGetConstStep (fun _ => {}) [{ «Type» := .ValString, Str := "k" }] 0
        [{ «Type» := .ValMap, Ptr := [("k", .aInt64 7)] }] 0 :=
  ⟨Nat.one_pos, Nat.one_pos,
    map_get_const_handlers_equal (fun _ => {})
      [{ «Type» := .ValString, Str := "k" }] 0
      [{ «Type» := .ValMap, Ptr := [("k", .aInt64 7)] }] 0 Nat.one_pos Nat.one_pos⟩

/-- C7: executing either GET-BY-CONST handler against a Map-typed
top-of-stack value whose map lacks the looked-up key yields the Nil
variant written in place at top-of-stack — never an error: map lookup is
total. -/
theorem map_get_const_missing_key_nil (FromInterface : Nat → Value)
    (consts : List Value) (arg : Nat) (stack : List Value) (sp : Nat)
    (hsp : sp < stack.length)
    (htype : (stack.getD sp {}).«Type» = .ValMap)
    (hmiss : ((stack.getD sp {}).Ptr).lookup ((consts.getD arg {}).Str) = none) :
    neoOpMapGetConstStep FromInterface consts arg stack sp =
        .ok (stack.set sp { «Type» := .ValNil }) ∧
      opMapGetConstStep FromInterface consts arg stack sp =
        .ok (stack.set sp { «Type» := .ValNil }) := by
  simp only [List.getD, List.get?_eq_getElem?] at htype hmiss
  constructor <;>
    simp [neoOpMapGetConstStep, opMapGetConstStep, htype, mapIndex, hmiss,
      List.getD]

/-- Witness for C7: a singleton stack holding an empty map, looked up at
key `"k"`. -/
theorem map_get_const_missing_key_nil_witness :
    neoOpMapGetConstStep (fun _ => {}) [{ «Type» := .ValString, Str := "k" }] 0
        [{ «Type» := .ValMap }] 0 = .ok [{ «Type» := .ValNil }] ∧
      opMapGetConstStep (fun _ => {}) [{ «Type» := .ValString, Str := "k" }] 0
        [{ «Type» := .ValMap }] 0 = .ok [{ «Type» := .ValNil }] := by
  have h := map_get_const_missing_key_nil (fun _ => {})
    [{ «Type» := .ValString, Str := "k" }] 0 [{ «Type» := .ValMap }] 0
    Nat.one_pos (by decide) (by decide)
  simpa using h

/-- C8: executing either GET-BY-CONST handler with a non-Map-typed
top-of-stack value fails with the runtime type error `"MGETC: not a map"`
(which contains "not a map"); the error is returned before any lookup or
stack write. -/
theorem map_get_const_not_a_map (FromInterface : Nat → Value)
    (consts : List Value) (arg : Nat) (stack : List Value) (sp : Nat)
    (hsp : sp < stack.length)
    (htype : (stack.getD sp {}).«Type» ≠ .ValMap) :
    neoOpMapGetConstStep FromInterface consts arg stack sp =
        .error "MGETC: not a map" ∧
      opMapGetConstStep FromInterface consts arg stack sp =
        .error "MGETC: not a map" := by
  simp only [List.getD, List.get?_eq_getElem?] at htype
  constructor <;>
    simp [neoOpMapGetConstStep, opMapGetConstStep, htype, List.getD]

/-- Witness for C8: an int-typed top-of-stack value. -/
theorem map_get_const_not_a_map_witness :
    neoOpMapGetConstStep (fun _ => {}) [] 0 [{ «Type» := .ValInt, Num := 3 }] 0 =
        .error "MGETC: not a map" ∧
      opMapGetConstStep (fun _ => {}) [] 0 [{ «Type» := .ValInt, Num := 3 }] 0 =
        .error "MGETC: not a map" :=
  map_get_const_not_a_map (fun _ => {}) [] 0 [{ «Type» := .ValInt, Num := 3 }] 0
    Nat.one_pos (by decide)

/-- C1: compiling `m.get("K")` — subject a bound map variable (last
emitted instruction a load-of-named-reference), key a string literal —
emits exactly one GET-BY-CONST instruction whose operand indexes a
constant-pool slot holding `"K"`, zero GENERIC-GET instructions, and no
push instruction for `"K"`; this holds for the NeoCompiler (first three
conjuncts: the appended delta is the single `NeoOpMapGetConst`, whose
operand indexes the slot holding the key) and for the VMCompiler's fast
path (last conjunct, with `c.walk` of the bound variable emitting its
load). -/
theorem get_const_string_key_fastpath
    (st : CompState) (left : compilationValue) (v : Value) (li : Instruction)
    (st2 : CompState) (g : Nat) (K : String)
    (hL : left.isConst = false)
    (hlast : st.instructions.getLast? = some li)
    (hop : li.Op = .NeoOpGetGlobal)
    (hstr : v.«Type» = .ValString) :
    parseMemberCallExpression st left "get" [.const v] =
      .ok { isConst := false }
        { instructions :=
            st.instructions ++ [⟨.NeoOpMapGetConst, st.constants.length⟩],
          constants := st.constants ++ [v] } ∧
    (st.constants ++ [v]).getD st.constants.length {} = v ∧
    ([Instruction.mk .NeoOpMapGetConst st.constants.length].countP
      (fun i => i.Op == .NeoOpMapGet) = 0 ∧
     [Instruction.mk .NeoOpMapGetConst st.constants.length].countP
      (fun i => i.Op == .NeoOpPush) = 0) ∧
    vmCompilerFastPath st2 (fun s => s.emit .OpGetGlobal g) "get" [.stringLit K] =
      some { instructions := st2.instructions ++
               [⟨.OpGetGlobal, g⟩, ⟨.OpMapGetConst, st2.constants.length⟩],
             constants := st2.constants ++ [{ «Type» := .ValString, Str := K }] } := by
  refine ⟨?_, ?_, ⟨by simp, by simp⟩, ?_⟩
  · simp [parseMemberCallExpression, methodSwitch, parseArgsList, parseArgExpr,
      argLoop, hL, hlast, hop, hstr, CompState.addConstant, CompState.emit]
  · simp
  · simp [vmCompilerFastPath, CompState.addConstant, CompState.emit]

/-- Witness for C1: `m.get("K")` compiled in a state whose last
instruction is the subject's `NeoOpGetGlobal` load, and the VMCompiler
side from an empty state. -/
theorem get_const_string_key_fastpath_witness :
    parseMemberCallExpression ⟨[⟨.NeoOpGetGlobal, 0⟩], []⟩ {} "get"
        [.const { «Type» := .ValString, Str := "K" }] =
      .ok { isConst := false }
        ⟨[⟨.NeoOpGetGlobal, 0⟩, ⟨.NeoOpMapGetConst, 0⟩],
         [{ «Type» := .ValString, Str := "K" }]⟩ ∧
    vmCompilerFastPath ⟨[], []⟩ (fun s => s.emit .OpGetGlobal 5) "get"
        [.stringLit "K"] =
      some ⟨[⟨.OpGetGlobal, 5⟩, ⟨.OpMapGetConst, 0⟩],
            [{ «Type» := .ValString, Str := "K" }]⟩ := by
  have h := get_const_string_key_fastpath ⟨[⟨.NeoOpGetGlobal, 0⟩], []⟩ {}
    { «Type» := .ValString, Str := "K" } ⟨.NeoOpGetGlobal, 0⟩
    ⟨[], []⟩ 5 "K" rfl rfl rfl rfl
  exact ⟨h.1, h.2.2.2⟩

/-- Helper: the pending-constant flag returned by the comma loop is the
incoming flag only when no further argument was parsed, and `false`
otherwise. -/
theorem argLoop_snd (args : List Arg) (st : CompState) (fc : Bool) (fv : Value) :
    (argLoop st fc fv args).2 = (args.isEmpty && fc) := by
  induction args generalizing st fc with
  | nil => simp [argLoop]
  | cons a rest ih => simp [argLoop, ih]

/-- C3: compiling `m.set(k, v)` with a bound map subject and exactly two
arguments materializes both operands (an `emitPush` for each
compile-time-constant argument, the non-constant arguments' instructions
being their materialization) and then emits exactly one GENERIC-SET
(`NeoOpMapSet`) instruction, whatever mix of literals the two arguments
are; no GET-BY-CONST fast-path instruction is added, so the constant-key
fast path is never taken for `set`. -/
theorem set_materializes_then_generic_set
    (st : CompState) (left : compilationValue) (a1 a2 : Arg) (li : Instruction)
    (hL : left.isConst = false)
    (hlast : st.instructions.getLast? = some li)
    (hop : li.Op = .NeoOpGetGlobal) :
    parseMemberCallExpression st left "set" [a1, a2] =
      .ok { isConst := false }
        ((materialize (materialize st a1) a2).emit .NeoOpMapSet 0) ∧
    ((a1.code ++ a2.code).countP (fun i => i.Op == .NeoOpMapSet) = 0 →
      ((materialize (materialize st a1) a2).emit .NeoOpMapSet 0).instructions.countP
          (fun i => i.Op == .NeoOpMapSet) =
        st.instructions.countP (fun i => i.Op == .NeoOpMapSet) + 1) ∧
    ((materialize (materialize st a1) a2).emit .NeoOpMapSet 0).instructions.countP
        (fun i => i.Op == .NeoOpMapGetConst) =
      st.instructions.countP (fun i => i.Op == .NeoOpMapGetConst) +
        (a1.code ++ a2.code).countP (fun i => i.Op == .NeoOpMapGetConst) := by
  refine ⟨?_, ?_, ?_⟩
  · cases a1 <;> cases a2 <;>
      simp [parseMemberCallExpression, methodSwitch, parseArgsList, parseArgExpr,
        argLoop, materialize, hL, hlast, hop, CompState.emitPush,
        CompState.addConstant, CompState.emit]
  · intro hnone
    rw [List.countP_append] at hnone
    have h1 : List.countP (fun i => i.Op == OpCode.NeoOpMapSet) a1.code = 0 := by
      omega
    have h2 : List.countP (fun i => i.Op == OpCode.NeoOpMapSet) a2.code = 0 := by
      omega
    cases a1 <;> cases a2 <;> simp only [Arg.code] at h1 h2 <;>
      simp [materialize, CompState.emitPush, CompState.addConstant,
        CompState.emit, List.countP_append, h1, h2]
  · cases a1 <;> cases a2 <;>
      simp [materialize, Arg.code, CompState.emitPush, CompState.addConstant,
        CompState.emit, List.countP_append, Nat.add_assoc]

/-- Witness for C3: `m.set("K", e)` with a literal key and a non-constant
value expression. -/
theorem set_materializes_then_generic_set_witness :
    parseMemberCallExpression ⟨[⟨.NeoOpGetGlobal, 0⟩], []⟩ {} "set"
        [.const { «Type» := .ValString, Str := "K" },
         .nonConst [⟨.NeoOpGetGlobal, 1⟩] []] =
      .ok { isConst := false }
        ⟨[⟨.NeoOpGetGlobal, 0⟩, ⟨.NeoOpPush, 0⟩, ⟨.NeoOpGetGlobal, 1⟩,
          ⟨.NeoOpMapSet, 0⟩],
         [{ «Type» := .ValString, Str := "K" }]⟩ := by
  have h := set_materializes_then_generic_set ⟨[⟨.NeoOpGetGlobal, 0⟩], []⟩ {}
    (.const { «Type» := .ValString, Str := "K" })
    (.nonConst [⟨.NeoOpGetGlobal, 1⟩] []) ⟨.NeoOpGetGlobal, 0⟩ rfl rfl rfl
  simpa [materialize, CompState.emitPush, CompState.addConstant,
    CompState.emit] using h.1

/-- C4: the at-most-one-pending-constant discipline of the argument loop:
(1) after any non-empty run of the comma loop the pending flag is cleared,
so at most the first argument's constant is ever unmaterialized; (2) a
comma met while the first constant is pending behaves exactly as flushing
it (an `emitPush`) before the next argument is parsed; (3) every
subsequently parsed argument that is itself a constant is flushed (pushed)
immediately. -/
theorem arg_loop_pending_invariant :
    (∀ (st : CompState) (fc : Bool) (fv : Value) (args : List Arg),
      (argLoop st fc fv args).2 = (args.isEmpty && fc)) ∧
    (∀ (st : CompState) (fv : Value) (a : Arg) (rest : List Arg),
      argLoop st true fv (a :: rest) =
        argLoop (st.emitPush fv) false fv (a :: rest)) ∧
    (∀ (st : CompState) (fv v : Value) (rest : List Arg),
      argLoop st false fv (.const v :: rest) =
        argLoop (st.emitPush v) false fv rest) := by
  refine ⟨fun st fc fv args => argLoop_snd args st fc fv, ?_, ?_⟩
  · intro st fv a rest
    simp [argLoop, parseArgExpr]
  · intro st fv v rest
    simp [argLoop, parseArgExpr]

/-- Helper: the unknown-method error message can never collide with the
subject-check error message, whatever the method name. -/
theorem unknown_method_msg_ne (m : String) :
    ("unknown map method: " ++ m) ≠ "member call subject must be an identifier" := by
  intro h
  have h2 : ("unknown map method: " ++ m).data =
      "member call subject must be an identifier".data := by rw [h]
  rw [String.data_append] at h2
  have h6 := congrArg List.head? h2
  simp at h6

/-- Helper: the argument count returned by the argument-list block is the
length of the argument list. -/
theorem parseArgsList_numArgs (st : CompState) (args : List Arg) :
    (parseArgsList st args).2.2.2 = args.length := by
  cases args <;> simp [parseArgsList]

/-- Helper: no branch of the method switch produces the subject-check
error message. -/
theorem methodSwitch_errMsg_ne_subject (method : String) (st : CompState)
    (fc : Bool) (fv : Value) (n : Nat) :
    (methodSwitch method st fc fv n).errMsg ≠
      some "member call subject must be an identifier" := by
  rw [methodSwitch]
  split_ifs <;> simp [CompResult.errMsg, unknown_method_msg_ne method]

/-- Helper: on arguments that all parse successfully, the
error-propagating argument loop agrees with the restricted one. -/
theorem argLoopE_toArgE (rest : List Arg) (st : CompState) (fc : Bool)
    (fv : Value) :
    argLoopE st fc fv (rest.map Arg.toArgE) = .ok (argLoop st fc fv rest) := by
  induction rest generalizing st fc with
  | nil => simp [argLoopE, argLoop]
  | cons a rest ih =>
      cases a <;> simp [argLoopE, argLoop, Arg.toArgE, parseArgExprE,
        parseArgExpr, ih]

/-- Helper: on arguments that all parse successfully, the
error-propagating member-call compiler agrees with the restricted one. -/
theorem parseMemberCallExpressionE_toArgE (st : CompState)
    (left : compilationValue) (method : String) (args : List Arg) :
    parseMemberCallExpressionE st left method (args.map Arg.toArgE) =
      parseMemberCallExpression st left method args := by
  rw [parseMemberCallExpressionE, parseMemberCallExpression]
  have hargs : parseArgsListE st (args.map Arg.toArgE) =
      .ok (parseArgsList st args) := by
    cases args with
    | nil => simp [parseArgsListE, parseArgsList]
    | cons a rest =>
        cases a <;> simp [parseArgsListE, parseArgsList, parseArgExprE,
          parseArgExpr, Arg.toArgE, argLoopE_toArgE]
  rw [hargs]

/-- Counterexample for C5: compiling `m.get(n.get("x").get("y"))` -- the
nested argument's own parse fails with the subject error because after
`n.get("x")` the last instruction is `NeoOpMapGetConst`, and the outer
call propagates that message -- produces the message with a valid outer
subject: `left` non-constant and the last instruction `NeoOpGetGlobal`.
So the message does not occur exactly when the outer subject checks
fail. -/
theorem subject_check_error_iff_counterexample :
    ¬ ((parseMemberCallExpressionE ⟨[⟨.NeoOpGetGlobal, 0⟩], []⟩ {} "get"
          [.fail [⟨.NeoOpGetGlobal, 1⟩, ⟨.NeoOpMapGetConst, 0⟩]
            [{ «Type» := .ValString, Str := "x" }]
            "member call subject must be an identifier"]).errMsg =
          some "member call subject must be an identifier" ↔
        (({} : compilationValue).isConst = true ∨
          Instruction.Op ⟨.NeoOpGetGlobal, 0⟩ ≠ .NeoOpGetGlobal)) := by
  decide

/-- C5 (amended): compiling a member call fails with
`"member call subject must be an identifier"` exactly when the subject is
a compile-time constant, the most recently emitted instruction is not the
`NeoOpGetGlobal` load-of-named-reference, or an argument's own parse
fails with that same propagated message; no other compilation path
produces it. -/
theorem subject_check_error_iff_amended
    (st : CompState) (left : compilationValue) (method : String)
    (args : List ArgE) (li : Instruction)
    (hlast : st.instructions.getLast? = some li) :
    (parseMemberCallExpressionE st left method args).errMsg =
        some "member call subject must be an identifier" ↔
      (left.isConst = true ∨ li.Op ≠ .NeoOpGetGlobal ∨
        argsError (parseArgsListE st args) =
          some "member call subject must be an identifier") := by
  by_cases hc : left.isConst
  · simp [parseMemberCallExpressionE, hc, CompResult.errMsg]
  · have hc' : left.isConst = false := by simpa using hc
    by_cases hop : li.Op = OpCode.NeoOpGetGlobal
    · rw [parseMemberCallExpressionE]
      cases hargs : parseArgsListE st args with
      | error e =>
          simp [hc', hlast, hop, hargs, CompResult.errMsg, argsError]
      | ok r =>
          simp [hc', hlast, hop, hargs, methodSwitch_errMsg_ne_subject,
            argsError]
    · simp [parseMemberCallExpressionE, hc', hlast, hop, CompResult.errMsg]

/-- Witness for C5 (amended): a propagated argument-parse error carrying
the subject message, with a valid outer subject. -/
theorem subject_check_error_iff_amended_witness :
    (parseMemberCallExpressionE ⟨[⟨.NeoOpGetGlobal, 0⟩], []⟩ {} "get"
          [.fail [⟨.NeoOpGetGlobal, 1⟩, ⟨.NeoOpMapGetConst, 0⟩]
            [{ «Type» := .ValString, Str := "x" }]
            "member call subject must be an identifier"]).errMsg =
        some "member call subject must be an identifier" := by
  have h := subject_check_error_iff_amended ⟨[⟨.NeoOpGetGlobal, 0⟩], []⟩ {}
    "get"
    [.fail [⟨.NeoOpGetGlobal, 1⟩, ⟨.NeoOpMapGetConst, 0⟩]
      [{ «Type» := .ValString, Str := "x" }]
      "member call subject must be an identifier"]
    ⟨.NeoOpGetGlobal, 0⟩ rfl
  exact h.mpr (Or.inr (Or.inr (by decide)))

/-- Helper: the method switch never panics. -/
theorem methodSwitch_ne_panic (method : String) (st : CompState)
    (fc : Bool) (fv : Value) (n : Nat) :
    methodSwitch method st fc fv n ≠ .panic := by
  rw [methodSwitch]
  split_ifs <;> simp

/-- C6: the per-method dispatch contract: with a valid subject, a compiled
member call succeeds exactly when the method is `get`, `has` or `del`
with 1 argument or `set` with 2; any other count fails with the
SemanticError naming the method and its expected arity, and a method
outside {get, set, has, del} fails with the error naming that unknown
method. -/
theorem method_arity_contract
    (st : CompState) (left : compilationValue) (method : String)
    (args : List Arg) (li : Instruction)
    (hL : left.isConst = false)
    (hlast : st.instructions.getLast? = some li)
    (hop : li.Op = .NeoOpGetGlobal) :
    ((parseMemberCallExpression st left method args).isOk = true ↔
      ((method = "get" ∧ args.length = 1) ∨ (method = "set" ∧ args.length = 2) ∨
       (method = "has" ∧ args.length = 1) ∨ (method = "del" ∧ args.length = 1))) ∧
    (method = "get" → args.length ≠ 1 →
      (parseMemberCallExpression st left method args).errMsg =
        some "get expects 1 argument") ∧
    (method = "set" → args.length ≠ 2 →
      (parseMemberCallExpression st left method args).errMsg =
        some "set expects 2 arguments") ∧
    (method = "has" → args.length ≠ 1 →
      (parseMemberCallExpression st left method args).errMsg =
        some "has expects 1 argument") ∧
    (method = "del" → args.length ≠ 1 →
      (parseMemberCallExpression st left method args).errMsg =
        some "del expects 1 argument") ∧
    (method ≠ "get" → method ≠ "set" → method ≠ "has" → method ≠ "del" →
      (parseMemberCallExpression st left method args).errMsg =
        some ("unknown map method: " ++ method)) := by
  have hred : parseMemberCallExpression st left method args =
      methodSwitch method (parseArgsList st args).1 (parseArgsList st args).2.1
        (parseArgsList st args).2.2.1 (parseArgsList st args).2.2.2 := by
    rw [parseMemberCallExpression]
    simp [hL, hlast, hop]
  rw [hred, parseArgsList_numArgs, methodSwitch]
  split_ifs <;> simp_all [CompResult.isOk, CompResult.errMsg]

/-- Witness for C6: `m.foo(1)` fails naming the unknown method `foo`. -/
theorem method_arity_contract_witness :
    (parseMemberCallExpression ⟨[⟨.NeoOpGetGlobal, 0⟩], []⟩ {} "foo"
        [.const { «Type» := .ValInt, Num := 1 }]).errMsg =
      some "unknown map method: foo" := by
  have h := method_arity_contract ⟨[⟨.NeoOpGetGlobal, 0⟩], []⟩ {} "foo"
    [.const { «Type» := .ValInt, Num := 1 }] ⟨.NeoOpGetGlobal, 0⟩ rfl rfl rfl
  have h2 := h.2.2.2.2.2 (by decide) (by decide) (by decide) (by decide)
  simpa using h2

/-- C9: under the invariant that a non-constant subject implies at least
one instruction is already in the buffer, the read of the last emitted
instruction is always in bounds: member-call compilation never hits the
out-of-range panic. -/
theorem last_inst_read_in_bounds
    (st : CompState) (left : compilationValue) (method : String)
    (args : List Arg)
    (hinv : left.isConst = false → st.instructions ≠ []) :
    parseMemberCallExpression st left method args ≠ .panic := by
  by_cases hc : left.isConst
  · simp [parseMemberCallExpression, hc]
  · have hc' : left.isConst = false := by simpa using hc
    have hne := hinv hc'
    rcases Option.isSome_iff_exists.mp (List.getLast?_isSome.mpr hne) with ⟨li, hli⟩
    rw [parseMemberCallExpression]
    simp only [hc', Bool.false_eq_true, if_false, hli]
    split_ifs <;> simp [methodSwitch_ne_panic]

/-- Witness for C9: a buffer with the subject's load instruction. -/
theorem last_inst_read_in_bounds_witness :
    parseMemberCallExpression ⟨[⟨.NeoOpGetGlobal, 0⟩], []⟩ {} "get" [] ≠ .panic :=
  last_inst_read_in_bounds ⟨[⟨.NeoOpGetGlobal, 0⟩], []⟩ {} "get" []
    (fun _ => by decide)

/-- C10: compiling `m.set("K")` — a pending constant first argument with
the wrong argument count — appends the flush (push) instruction for that
constant to the buffer before returning the arity error: the instruction
buffer is not left unchanged on this error path. (For `has` and `del` a
pending constant forces exactly one parsed argument, so their
flush-then-arity-error path cannot be reached; `set` with one literal
argument is the realizable case.) -/
theorem set_arity_error_flushes_pending
    (st : CompState) (left : compilationValue) (v : Value) (li : Instruction)
    (hL : left.isConst = false)
    (hlast : st.instructions.getLast? = some li)
    (hop : li.Op = .NeoOpGetGlobal) :
    parseMemberCallExpression st left "set" [.const v] =
      .err "set expects 2 arguments"
        { instructions := st.instructions ++ [⟨.NeoOpPush, st.constants.length⟩],
          constants := st.constants ++ [v] } ∧
    st.instructions ++ [⟨.NeoOpPush, st.constants.length⟩] ≠ st.instructions := by
  constructor
  · simp [parseMemberCallExpression, methodSwitch, parseArgsList, parseArgExpr,
      argLoop, hL, hlast, hop, CompState.emitPush, CompState.addConstant,
      CompState.emit]
  · intro h
    have hlen := congrArg List.length h
    simp at hlen

/-- Witness for C10: `m.set("K")` from a one-instruction buffer. -/
theorem set_arity_error_flushes_pending_witness :
    parseMemberCallExpression ⟨[⟨.NeoOpGetGlobal, 0⟩], []⟩ {} "set"
        [.const { «Type» := .ValString, Str := "K" }] =
      .err "set expects 2 arguments"
        ⟨[⟨.NeoOpGetGlobal, 0⟩, ⟨.NeoOpPush, 0⟩],
         [{ «Type» := .ValString, Str := "K" }]⟩ := by
  have h := set_arity_error_flushes_pending ⟨[⟨.NeoOpGetGlobal, 0⟩], []⟩ {}
    { «Type» := .ValString, Str := "K" } ⟨.NeoOpGetGlobal, 0⟩ rfl rfl rfl
  simpa using h.1

end Uwasa
